import Mathlib

/-!
Verification of the question-selection core of the storage layer in
`core/storage/question/gae_models.py` (class `QuestionSkillLinkModel`).

The datastore is modelled as an abstract query capability (the spec's "Link
Store"): each selector receives the fetch functions it uses and we record the
sequence of store reads it performs as a trace of `FetchEvent`s.  Python
floats (`skill_difficulty`, `difficulty_requested`) are modelled as exact
rationals; Python ints as `Int`/`Nat`.
-/

namespace OppiaQuestionModels

/-- A `QuestionSkillLinkModel` record as seen by the selection algorithms:
`question_id`, `skill_id` and `skill_difficulty` properties. -/
structure Link where
  question_id : String
  skill_id : String
  skill_difficulty : ℚ
deriving DecidableEq, Repr

/-- Errors raised by the modelled methods. -/
inductive PyErr where
  /-- Raised as `Exception('Please keep the number of skill IDs below 20.')`. -/
  | maxSkillIds
  /-- Python `ZeroDivisionError` from dividing by `float(0)`. -/
  | zeroDivision
  /-- Raised as `Exception('The given question is already linked to given skill')`. -/
  | alreadyLinked
deriving DecidableEq, Repr

deriving instance DecidableEq for Except

/-- Modelled from the spec: `feconf.MAX_NUMBER_OF_SKILL_IDS` (the `feconf`
module is not part of the reviewed sources); the spec fixes the limit at 20
skill ids per selection call. -/
def MAX_NUMBER_OF_SKILL_IDS : Nat := 20

/-- Modelled from the spec: `python_utils.divide` on Python floats (the
`python_utils` module is not part of the reviewed sources).  True division,
raising `ZeroDivisionError` when the denominator is zero — the spec calls the
empty-`skill_ids` case "a division-by-zero hazard". -/
def pyDivide (a b : ℚ) : Except PyErr ℚ :=
  if b = 0 then .error .zeroDivision else .ok (a / b)

/-- Exact semantics of the Python pattern
```
for model in lst:
    if p(model): lst.remove(model)
```
iterating by an internal index `i` over a list that is mutated in place:
`lst.remove(x)` deletes the first occurrence equal to `x` (`List.erase`), the
index still advances, so the element right after a removed one is never
examined.  `fuel` makes the recursion structural; the loop runs while
`i < lst.length`, the index grows by one per step and the length never grows,
so any `fuel ≥ lst.length - i` computes the loop's true result. -/
def pyFilterLoop {α : Type} [DecidableEq α] (p : α → Bool) :
    Nat → Nat → List α → List α
  | 0, _, l => l
  | fuel + 1, i, l =>
    if h : i < l.length then
      if p (l.get ⟨i, h⟩) then pyFilterLoop p fuel (i + 1) (l.erase (l.get ⟨i, h⟩))
      else pyFilterLoop p fuel (i + 1) l
    else l

/-- The Python remove-during-iteration loop, started at index 0 with enough
fuel for the whole list. -/
def pyFilterRemove {α : Type} [DecidableEq α] (p : α → Bool) (l : List α) :
    List α :=
  pyFilterLoop p l.length 0 l

theorem pyFilterLoop_sublist {α : Type} [DecidableEq α] (p : α → Bool) :
    ∀ (fuel i : Nat) (l : List α), List.Sublist (pyFilterLoop p fuel i l) l := by
  intro fuel
  induction fuel with
  | zero => intro i l; exact List.Sublist.refl l
  | succ fuel ih =>
    intro i l
    rw [pyFilterLoop]
    split
    · split
      · exact (ih (i + 1) _).trans (List.erase_sublist _ _)
      · exact ih (i + 1) l
    · exact List.Sublist.refl l

theorem pyFilterRemove_sublist {α : Type} [DecidableEq α] (p : α → Bool)
    (l : List α) : List.Sublist (pyFilterRemove p l) l :=
  pyFilterLoop_sublist p l.length 0 l

/-- An element the predicate rejects is never removed by the loop: `remove`
only ever deletes an element equal to one the predicate accepted. -/
theorem mem_pyFilterLoop_of_not {α : Type} [DecidableEq α] (p : α → Bool) :
    ∀ (fuel i : Nat) (l : List α) (x : α), x ∈ l → p x = false →
      x ∈ pyFilterLoop p fuel i l := by
  intro fuel
  induction fuel with
  | zero => intro i l x hx _; exact hx
  | succ fuel ih =>
    intro i l x hx hp
    rw [pyFilterLoop]
    split
    · split
      · rename_i h hpget
        refine ih (i + 1) _ x ?_ hp
        have hne : x ≠ l.get ⟨i, h⟩ := by
          intro he
          rw [he, hpget] at hp
          exact Bool.noConfusion hp
        exact (List.mem_erase_of_ne hne).2 hx
      · exact ih (i + 1) l x hx hp
    · exact hx

theorem mem_pyFilterRemove_of_not {α : Type} [DecidableEq α] (p : α → Bool)
    (l : List α) (x : α) (hx : x ∈ l) (hp : p x = false) :
    x ∈ pyFilterRemove p l :=
  mem_pyFilterLoop_of_not p l.length 0 l x hx hp

/-- An element dropped by the loop satisfied the predicate. -/
theorem pred_of_not_mem_pyFilterRemove {α : Type} [DecidableEq α]
    (p : α → Bool) (l : List α) (x : α) (hx : x ∈ l)
    (hout : x ∉ pyFilterRemove p l) : p x = true := by
  by_contra h
  exact hout (mem_pyFilterRemove_of_not p l x hx (Bool.not_eq_true _ |>.mp h))

/-- One store read performed by a selector: which query was issued and with
which fetch limit.  The selectors' return value is paired with the list of
reads, in the order they were performed. -/
inductive FetchEvent where
  /-- The unfiltered fetch `cls.query(cls.skill_id == skill_id).fetch(limit)`. -/
  | bySkill (skill_id : String) (limit : Nat)
  /-- The exact-difficulty fetch, filter `cls.skill_difficulty == difficulty_requested`. -/
  | eqDifficulty (skill_id : String) (difficulty : ℚ) (limit : Nat)
  /-- the strictly-easier query, ordered by decreasing difficulty -/
  | lessDifficulty (skill_id : String) (difficulty : ℚ) (limit : Nat)
  /-- the strictly-harder query, ordered by increasing difficulty -/
  | greaterDifficulty (skill_id : String) (difficulty : ℚ) (limit : Nat)
deriving DecidableEq, Repr

/-- The narrow query capability the difficulty-ranked selector needs from the
datastore: the three filtered fetches built from `cls.query(cls.skill_id ==
skill_id)` in the source.  Each function receives the skill id, the requested
difficulty and the fetch limit. -/
structure DiffStore where
  fetchEqual : String → ℚ → Nat → List Link
  fetchEasier : String → ℚ → Nat → List Link
  fetchHarder : String → ℚ → Nat → List Link

/-- Membership test `model.question_id in question_skill_link_mapping`: the running mapping
is keyed by question id; a dict in insertion order is modelled as the list of
its values. -/
def hasQuestionId (mapping : List Link) (q : String) : Bool :=
  mapping.any fun l => l.question_id == q

/-- Lines 370-372: `if model.question_id not in question_skill_link_mapping:
question_skill_link_mapping[model.question_id] = model` — insert-if-absent
into the insertion-ordered mapping. -/
def insertIfAbsent (mapping : List Link) (l : Link) : List Link :=
  if hasQuestionId mapping l.question_id then mapping else mapping ++ [l]

/-- The sort key `abs(model.skill_difficulty - difficulty_requested)`. -/
def distTo (difficulty_requested : ℚ) (l : Link) : ℚ :=
  |l.skill_difficulty - difficulty_requested|

/-- Comparison of sort keys; `sorted` with this key is modelled by the stable
`List.insertionSort` along this relation. -/
def distLE (difficulty_requested : ℚ) (a b : Link) : Prop :=
  distTo difficulty_requested a ≤ distTo difficulty_requested b

instance (d : ℚ) : DecidableRel (distLE d) := fun a b =>
  inferInstanceAs (Decidable (distTo d a ≤ distTo d b))

instance (d : ℚ) : IsTotal Link (distLE d) := ⟨fun _ _ => le_total _ _⟩

instance (d : ℚ) : IsTrans Link (distLE d) := ⟨fun _ _ _ => le_trans⟩

/-- Loop body of
`get_question_skill_links_based_on_difficulty_equidistributed_by_skill`
(source lines 314-368): the final value of the local variable
`new_question_skill_link_models` for one `skill_id`, just before it is merged
into the mapping, paired with the store reads performed.  Tier 1 fetches up
to `2 * quota` links of exactly the requested difficulty and deduplicates
them against the mapping with the remove-during-iteration loop; if fewer
than `quota` remain, tier 2 fetches up to `quota` strictly-easier links and
appends their dedup survivors; if still fewer than `quota`, tier 3 does the
same with strictly-harder links; in that case the accumulated list is sorted
by distance from the requested difficulty.  The list is then truncated to
`quota`. -/
def new_question_skill_link_models (store : DiffStore) (mapping : List Link)
    (quota : Nat) (difficulty_requested : ℚ) (skill_id : String) :
    List FetchEvent × List Link :=
  let inMapping : Link → Bool := fun l => hasQuestionId mapping l.question_id
  let equalModels :=
    pyFilterRemove inMapping (store.fetchEqual skill_id difficulty_requested (quota * 2))
  if equalModels.length < quota then
    let easierModels :=
      pyFilterRemove inMapping (store.fetchEasier skill_id difficulty_requested quota)
    let afterEasier := equalModels ++ easierModels
    let stepHarder : List FetchEvent × List Link :=
      if afterEasier.length < quota then
        ([FetchEvent.greaterDifficulty skill_id difficulty_requested quota],
          afterEasier ++
            pyFilterRemove inMapping (store.fetchHarder skill_id difficulty_requested quota))
      else ([], afterEasier)
    ([FetchEvent.eqDifficulty skill_id difficulty_requested (quota * 2),
        FetchEvent.lessDifficulty skill_id difficulty_requested quota] ++ stepHarder.1,
      (List.insertionSort (distLE difficulty_requested) stepHarder.2).take quota)
  else
    ([FetchEvent.eqDifficulty skill_id difficulty_requested (quota * 2)],
      equalModels.take quota)

/-- The `for skill_id in skill_ids` loop of the difficulty-ranked selector
(source lines 314-372), threading the insertion-ordered mapping. -/
def diffLoop (store : DiffStore) (quota : Nat) (difficulty_requested : ℚ) :
    List String → List Link → List FetchEvent → List FetchEvent × List Link
  | [], mapping, events => (events, mapping)
  | skill_id :: rest, mapping, events =>
    let step := new_question_skill_link_models store mapping quota difficulty_requested skill_id
    diffLoop store quota difficulty_requested rest
      (step.2.foldl insertIfAbsent mapping) (events ++ step.1)

/-- The expression `int(math.ceil(python_utils.divide(float(total_question_count),
float(len(skill_ids)))))` (source lines 308-310 and 400-403): the per-skill
quota, raising `ZeroDivisionError` when `n = 0`.  On success the mathematical
value is non-negative whenever `total_question_count` is (the only case in
which the selectors can reach a store fetch without the underlying datastore
itself raising), so the count is returned as a `Nat`. -/
def question_count_per_skill (total_question_count : Int) (n : Nat) :
    Except PyErr Nat :=
  (pyDivide (total_question_count : ℚ) (n : ℚ)).map fun q => (Int.ceil q).toNat

/-- Method `QuestionSkillLinkModel.get_question_skill_links_based_on_difficulty_equidistributed_by_skill`
(source lines 280-374), over an abstract store.  Returns the trace of store
reads together with the result: the values of the insertion-ordered
deduplication mapping. -/
def get_question_skill_links_based_on_difficulty_equidistributed_by_skill
    (store : DiffStore) (total_question_count : Int) (skill_ids : List String)
    (difficulty_requested : ℚ) : List FetchEvent × Except PyErr (List Link) :=
  if skill_ids.length > MAX_NUMBER_OF_SKILL_IDS then ([], .error .maxSkillIds)
  else
    match question_count_per_skill total_question_count skill_ids.length with
    | .error e => ([], .error e)
    | .ok quota =>
      let res := diffLoop store quota difficulty_requested skill_ids [] []
      (res.1, .ok res.2)

/-- The `for skill_id in skill_ids` loop of the equidistribution selector
(source lines 407-423), threading the accumulated result list and
`existing_question_ids`.  Per skill: fetch up to `2 * quota` links, run the
remove-during-iteration dedup pass against `existing_question_ids`, extend
the result with the first `quota` survivors, and extend
`existing_question_ids` with the question ids of ALL survivors. -/
def equiLoop (store : String → Nat → List Link) (quota : Nat) :
    List String → List Link → List String → List FetchEvent →
    List FetchEvent × List Link × List String
  | [], acc, existing_question_ids, events => (events, acc, existing_question_ids)
  | skill_id :: rest, acc, existing_question_ids, events =>
    let survivors :=
      pyFilterRemove (fun l => existing_question_ids.contains l.question_id)
        (store skill_id (quota * 2))
    equiLoop store quota rest (acc ++ survivors.take quota)
      (existing_question_ids ++ survivors.map fun l => l.question_id)
      (events ++ [FetchEvent.bySkill skill_id (quota * 2)])

/-- Method `QuestionSkillLinkModel.get_question_skill_links_equidistributed_by_skill`
(source lines 376-425), over an abstract per-skill fetch.  Returns the trace
of store reads together with the result list. -/
def get_question_skill_links_equidistributed_by_skill
    (store : String → Nat → List Link) (total_question_count : Int)
    (skill_ids : List String) : List FetchEvent × Except PyErr (List Link) :=
  if skill_ids.length > MAX_NUMBER_OF_SKILL_IDS then ([], .error .maxSkillIds)
  else
    match question_count_per_skill total_question_count skill_ids.length with
    | .error e => ([], .error e)
    | .ok quota =>
      let res := equiLoop store quota skill_ids [] [] []
      (res.1, .ok res.2.1)

/-- What the selectors may assume of the real datastore's answers to the
three difficulty queries: results carry the queried skill id, satisfy the
difficulty filter, respect the fetch limit, come in the query's sort order
(easier: decreasing difficulty, harder: increasing difficulty), and — since
entity ids `question_id:skill_id` are unique keys and all results of one
query share the skill id — no two results of one fetch share a question id. -/
structure ValidDiffStore (store : DiffStore) (d : ℚ) : Prop where
  equal_fields : ∀ s n, ∀ l ∈ store.fetchEqual s d n,
    l.skill_id = s ∧ l.skill_difficulty = d
  equal_len : ∀ s n, (store.fetchEqual s d n).length ≤ n
  equal_nodup : ∀ s n,
    ((store.fetchEqual s d n).map fun l => l.question_id).Nodup
  easier_fields : ∀ s n, ∀ l ∈ store.fetchEasier s d n,
    l.skill_id = s ∧ l.skill_difficulty < d
  easier_sorted : ∀ s n, (store.fetchEasier s d n).Pairwise
    fun a b => b.skill_difficulty ≤ a.skill_difficulty
  easier_len : ∀ s n, (store.fetchEasier s d n).length ≤ n
  easier_nodup : ∀ s n,
    ((store.fetchEasier s d n).map fun l => l.question_id).Nodup
  harder_fields : ∀ s n, ∀ l ∈ store.fetchHarder s d n,
    l.skill_id = s ∧ d < l.skill_difficulty
  harder_sorted : ∀ s n, (store.fetchHarder s d n).Pairwise
    fun a b => a.skill_difficulty ≤ b.skill_difficulty
  harder_len : ∀ s n, (store.fetchHarder s d n).length ≤ n
  harder_nodup : ∀ s n,
    ((store.fetchHarder s d n).map fun l => l.question_id).Nodup

theorem hasQuestionId_eq_false_iff (mapping : List Link) (q : String) :
    hasQuestionId mapping q = false ↔ ∀ l ∈ mapping, l.question_id ≠ q := by
  simp [hasQuestionId]

/-- Folding `insertIfAbsent` only ever appends: the mapping's values stay a
prefix and the new values are a sublist of the inserted list. -/
theorem foldl_insertIfAbsent_append :
    ∀ (chosen mapping : List Link), ∃ extra,
      chosen.foldl insertIfAbsent mapping = mapping ++ extra ∧
        List.Sublist extra chosen := by
  intro chosen
  induction chosen with
  | nil =>
    intro mapping
    exact ⟨[], (List.append_nil mapping).symm, List.Sublist.refl []⟩
  | cons c cs ih =>
    intro mapping
    rw [List.foldl_cons]
    by_cases hc : hasQuestionId mapping c.question_id
    · obtain ⟨extra, he, hs⟩ := ih mapping
      refine ⟨extra, ?_, hs.cons c⟩
      rwa [insertIfAbsent, if_pos hc]
    · obtain ⟨extra, he, hs⟩ := ih (mapping ++ [c])
      refine ⟨c :: extra, ?_, hs.cons₂ c⟩
      rw [insertIfAbsent, if_neg hc, he, List.append_assoc]
      rfl

/-- Folding `insertIfAbsent` preserves the mapping's key invariant: no two
values share a question id. -/
theorem foldl_insertIfAbsent_nodup :
    ∀ (chosen mapping : List Link),
      (mapping.map fun l => l.question_id).Nodup →
      ((chosen.foldl insertIfAbsent mapping).map fun l => l.question_id).Nodup := by
  intro chosen
  induction chosen with
  | nil => intro mapping h; exact h
  | cons c cs ih =>
    intro mapping h
    rw [List.foldl_cons]
    by_cases hc : hasQuestionId mapping c.question_id
    · rw [insertIfAbsent, if_pos hc]
      exact ih mapping h
    · rw [insertIfAbsent, if_neg hc]
      refine ih (mapping ++ [c]) ?_
      have hq : ∀ l ∈ mapping, l.question_id ≠ c.question_id :=
        (hasQuestionId_eq_false_iff mapping c.question_id).mp (Bool.of_not_eq_true hc)
      simp only [List.map_append, List.map_cons, List.map_nil, List.nodup_append,
        List.nodup_cons, List.not_mem_nil, not_false_iff, List.nodup_nil, true_and,
        List.Disjoint]
      refine ⟨h, ?_⟩
      intro a ha hb
      simp only [List.mem_singleton] at hb
      obtain ⟨l, hl, rfl⟩ := List.mem_map.mp ha
      exact hq l hl hb

/-- The list a skill iteration contributes to the mapping is sorted by
distance from the requested difficulty, carries that skill's id, and has at
most `quota` elements. -/
theorem new_question_skill_link_models_spec (store : DiffStore) (d : ℚ)
    (hv : ValidDiffStore store d) (mapping : List Link) (quota : Nat)
    (skill_id : String) :
    ((new_question_skill_link_models store mapping quota d skill_id).2.Pairwise
        (distLE d)) ∧
      (∀ l ∈ (new_question_skill_link_models store mapping quota d skill_id).2,
        l.skill_id = skill_id) ∧
      (new_question_skill_link_models store mapping quota d skill_id).2.length ≤
        quota := by
  rw [new_question_skill_link_models]
  simp only []
  split
  · -- tiers 2/3 were reached; the accumulated candidates are sorted.
    set inMapping : Link → Bool := fun l => hasQuestionId mapping l.question_id with hin
    split
    · -- harder fetch performed
      refine ⟨?_, ?_, List.length_take_le _ _⟩
      · refine List.Pairwise.sublist (List.take_sublist _ _) ?_
        exact List.sorted_insertionSort (distLE d) _
      · intro l hl
        have hl2 := List.mem_insertionSort (distLE d) |>.mp (List.take_subset _ _ hl)
        rcases List.mem_append.mp hl2 with hl3 | hl3
        · rcases List.mem_append.mp hl3 with hl4 | hl4
          · exact (hv.equal_fields _ _ l
              ((pyFilterRemove_sublist _ _).subset hl4)).1
          · exact (hv.easier_fields _ _ l
              ((pyFilterRemove_sublist _ _).subset hl4)).1
        · exact (hv.harder_fields _ _ l
            ((pyFilterRemove_sublist _ _).subset hl3)).1
    · -- harder fetch skipped
      refine ⟨?_, ?_, List.length_take_le _ _⟩
      · refine List.Pairwise.sublist (List.take_sublist _ _) ?_
        exact List.sorted_insertionSort (distLE d) _
      · intro l hl
        have hl2 := List.mem_insertionSort (distLE d) |>.mp (List.take_subset _ _ hl)
        rcases List.mem_append.mp hl2 with hl3 | hl3
        · exact (hv.equal_fields _ _ l
            ((pyFilterRemove_sublist _ _).subset hl3)).1
        · exact (hv.easier_fields _ _ l
            ((pyFilterRemove_sublist _ _).subset hl3)).1
  · -- enough exact matches: fetch order kept, all at distance zero.
    refine ⟨?_, ?_, List.length_take_le _ _⟩
    · refine List.pairwise_of_forall_mem_list ?_
      intro a ha b hb
      have ha2 := (hv.equal_fields _ _ a
        ((pyFilterRemove_sublist _ _).subset (List.take_subset _ _ ha))).2
      have hb2 := (hv.equal_fields _ _ b
        ((pyFilterRemove_sublist _ _).subset (List.take_subset _ _ hb))).2
      simp [distLE, distTo, ha2, hb2]
    · intro l hl
      exact (hv.equal_fields _ _ l
        ((pyFilterRemove_sublist _ _).subset (List.take_subset _ _ hl))).1

/-- The difficulty-ranked loop only ever appends to the mapping, one block
per skill id, each block sorted by distance, tagged with that skill's id,
and at most `quota` long. -/
theorem diffLoop_decomposition (store : DiffStore) (d : ℚ)
    (hv : ValidDiffStore store d) (quota : Nat) :
    ∀ (skill_ids : List String) (mapping : List Link) (events : List FetchEvent),
      ∃ parts,
        (diffLoop store quota d skill_ids mapping events).2 =
            mapping ++ parts.flatten ∧
          List.Forall₂
            (fun part s => part.Pairwise (distLE d) ∧
              (∀ l ∈ part, l.skill_id = s) ∧ part.length ≤ quota)
            parts skill_ids := by
  intro skills
  induction skills with
  | nil =>
    intro mapping events
    exact ⟨[], by simp [diffLoop], List.Forall₂.nil⟩
  | cons s rest ih =>
    intro mapping events
    simp only [diffLoop]
    obtain ⟨hp, hs, hlen⟩ :=
      new_question_skill_link_models_spec store d hv mapping quota s
    obtain ⟨extra, he, hsub⟩ := foldl_insertIfAbsent_append
      (new_question_skill_link_models store mapping quota d s).2 mapping
    obtain ⟨parts, hparts, hf⟩ := ih
      ((new_question_skill_link_models store mapping quota d s).2.foldl
        insertIfAbsent mapping)
      (events ++ (new_question_skill_link_models store mapping quota d s).1)
    refine ⟨extra :: parts, ?_, ?_⟩
    · rw [hparts, he, List.flatten_cons, List.append_assoc]
    · exact List.Forall₂.cons
        ⟨hp.sublist hsub, fun l hl => hs l (hsub.subset hl),
          le_trans hsub.length_le hlen⟩ hf

/-- The equidistribution loop appends one block of at most `quota` links per
skill id to the accumulated result. -/
theorem equiLoop_acc_decomposition (store : String → Nat → List Link)
    (quota : Nat) :
    ∀ (skill_ids : List String) (acc : List Link) (existing : List String)
      (events : List FetchEvent),
      ∃ parts,
        (equiLoop store quota skill_ids acc existing events).2.1 =
            acc ++ parts.flatten ∧
          List.Forall₂ (fun (part : List Link) (_ : String) =>
            part.length ≤ quota) parts skill_ids := by
  intro skills
  induction skills with
  | nil =>
    intro acc existing events
    exact ⟨[], by simp [equiLoop], List.Forall₂.nil⟩
  | cons s rest ih =>
    intro acc existing events
    simp only [equiLoop]
    obtain ⟨parts, hparts, hf⟩ := ih
      (acc ++
        (pyFilterRemove (fun l => existing.contains l.question_id)
          (store s (quota * 2))).take quota)
      (existing ++
        (pyFilterRemove (fun l => existing.contains l.question_id)
          (store s (quota * 2))).map fun l => l.question_id)
      (events ++ [FetchEvent.bySkill s (quota * 2)])
    refine ⟨(pyFilterRemove (fun l => existing.contains l.question_id)
        (store s (quota * 2))).take quota :: parts, ?_, ?_⟩
    · rw [hparts, List.flatten_cons, List.append_assoc]
    · exact List.Forall₂.cons (List.length_take_le _ _) hf

/-- A list of at-most-`quota`-long blocks, one per skill id, flattens to at
most `len(skill_ids) * quota` entries. -/
theorem flatten_length_le_of_forall₂ (quota : Nat) (parts : List (List Link))
    (skill_ids : List String)
    (h : List.Forall₂ (fun part _ => part.length ≤ quota) parts skill_ids) :
    parts.flatten.length ≤ skill_ids.length * quota := by
  induction h with
  | nil => simp
  | cons hab htail ih =>
    simp only [List.flatten_cons, List.length_append, List.length_cons]
    calc _ ≤ quota + _ * quota := Nat.add_le_add hab ih
    _ = (_ + 1) * quota := by ring

theorem question_count_per_skill_ok (total_question_count : Int) (n : Nat)
    (hn : n ≠ 0) :
    question_count_per_skill total_question_count n =
      .ok (Int.ceil ((total_question_count : ℚ) / (n : ℚ))).toNat := by
  rw [question_count_per_skill, pyDivide, if_neg]
  · rfl
  · exact fun h => hn (Nat.cast_eq_zero.mp h)

theorem diff_selector_eq (store : DiffStore) (total_question_count : Int)
    (skill_ids : List String) (d : ℚ) (h20 : skill_ids.length ≤ 20)
    (hne : skill_ids ≠ []) :
    get_question_skill_links_based_on_difficulty_equidistributed_by_skill
        store total_question_count skill_ids d =
      ((diffLoop store
          (Int.ceil ((total_question_count : ℚ) / (skill_ids.length : ℚ))).toNat
          d skill_ids [] []).1,
        .ok (diffLoop store
          (Int.ceil ((total_question_count : ℚ) / (skill_ids.length : ℚ))).toNat
          d skill_ids [] []).2) := by
  have hnum : ¬ (skill_ids.length > MAX_NUMBER_OF_SKILL_IDS) := by
    rw [MAX_NUMBER_OF_SKILL_IDS]; omega
  have hn : skill_ids.length ≠ 0 := fun h => hne (List.length_eq_zero.mp h)
  rw [get_question_skill_links_based_on_difficulty_equidistributed_by_skill,
    if_neg hnum, question_count_per_skill_ok _ _ hn]

theorem equi_selector_eq (store : String → Nat → List Link)
    (total_question_count : Int) (skill_ids : List String)
    (h20 : skill_ids.length ≤ 20) (hne : skill_ids ≠ []) :
    get_question_skill_links_equidistributed_by_skill
        store total_question_count skill_ids =
      ((equiLoop store
          (Int.ceil ((total_question_count : ℚ) / (skill_ids.length : ℚ))).toNat
          skill_ids [] [] []).1,
        .ok (equiLoop store
          (Int.ceil ((total_question_count : ℚ) / (skill_ids.length : ℚ))).toNat
          skill_ids [] [] []).2.1) := by
  have hnum : ¬ (skill_ids.length > MAX_NUMBER_OF_SKILL_IDS) := by
    rw [MAX_NUMBER_OF_SKILL_IDS]; omega
  have hn : skill_ids.length ≠ 0 := fun h => hne (List.length_eq_zero.mp h)
  rw [get_question_skill_links_equidistributed_by_skill,
    if_neg hnum, question_count_per_skill_ok _ _ hn]

/-- The qid-Nodup invariant of the mapping is preserved along the whole
difficulty-ranked loop. -/
theorem diffLoop_nodup (store : DiffStore) (quota : Nat) (d : ℚ) :
    ∀ (skill_ids : List String) (mapping : List Link) (events : List FetchEvent),
      (mapping.map fun l => l.question_id).Nodup →
      (((diffLoop store quota d skill_ids mapping events).2).map
        fun l => l.question_id).Nodup := by
  intro skills
  induction skills with
  | nil => intro mapping events h; exact h
  | cons s rest ih =>
    intro mapping events h
    simp only [diffLoop]
    exact ih _ _ (foldl_insertIfAbsent_nodup _ mapping h)

/-- A store with no content at all; vacuously valid, used to instantiate the
universally quantified theorems at a concrete input. -/
def emptyDiffStore : DiffStore :=
  ⟨fun _ _ _ => [], fun _ _ _ => [], fun _ _ _ => []⟩

theorem emptyDiffStore_valid (d : ℚ) : ValidDiffStore emptyDiffStore d := by
  constructor <;> simp [emptyDiffStore]

/-- C3: For every valid input (valid store, non-empty `skill_ids` with at
most 20 entries, non-negative `total_question_count`), the difficulty-ranked
selector returns the deduplication mapping's values in insertion order: the
result splits into one block per skill in `skill_ids` input order — so every
link contributed by an earlier skill precedes every link first contributed by
a later skill — and within each skill's block the links are in ascending
absolute distance from the requested difficulty and carry that skill's id. -/
theorem diff_selector_grouped_by_skill_and_sorted_by_distance
    (store : DiffStore) (total_question_count : Int) (skill_ids : List String)
    (d : ℚ) (hv : ValidDiffStore store d) (h20 : skill_ids.length ≤ 20)
    (hne : skill_ids ≠ []) (htotal : 0 ≤ total_question_count) :
    ∃ events parts,
      get_question_skill_links_based_on_difficulty_equidistributed_by_skill
          store total_question_count skill_ids d = (events, .ok parts.flatten) ∧
        List.Forall₂
          (fun part s => part.Pairwise (distLE d) ∧ ∀ l ∈ part, l.skill_id = s)
          parts skill_ids := by
  obtain ⟨parts, hparts, hf⟩ := diffLoop_decomposition store d hv
    (Int.ceil ((total_question_count : ℚ) / (skill_ids.length : ℚ))).toNat
    skill_ids [] []
  rw [List.nil_append] at hparts
  have heq := diff_selector_eq store total_question_count skill_ids d h20 hne
  rw [hparts] at heq
  exact ⟨_, parts, heq, hf.imp fun a b h => ⟨h.1, h.2.1⟩⟩

theorem diff_selector_grouped_by_skill_and_sorted_by_distance_witness :
    ∃ events parts,
      get_question_skill_links_based_on_difficulty_equidistributed_by_skill
          emptyDiffStore 0 ["a"] 0 = (events, .ok parts.flatten) ∧
        List.Forall₂
          (fun part s => part.Pairwise (distLE 0) ∧ ∀ l ∈ part, l.skill_id = s)
          parts ["a"] :=
  diff_selector_grouped_by_skill_and_sorted_by_distance emptyDiffStore 0 ["a"] 0
    (emptyDiffStore_valid 0) (by decide) (by decide) (by decide)

/-- C7: for every valid input both selectors compute the per-skill quota as
the (non-negative, unclamped) ceiling of `total_question_count / len(skill_ids)`,
each skill contributes a block of at most that many links, and the total
result length is therefore at most `len(skill_ids) * quota`. -/
theorem selectors_quota_ceiling_and_length_bound
    (storeE : String → Nat → List Link) (storeD : DiffStore)
    (total_question_count : Int) (skill_ids : List String) (d : ℚ)
    (hv : ValidDiffStore storeD d) (h20 : skill_ids.length ≤ 20)
    (hne : skill_ids ≠ []) (htotal : 0 ≤ total_question_count) :
    (question_count_per_skill total_question_count skill_ids.length =
        .ok (Int.ceil
          ((total_question_count : ℚ) / (skill_ids.length : ℚ))).toNat ∧
      (((Int.ceil
          ((total_question_count : ℚ) / (skill_ids.length : ℚ))).toNat : Int) =
        Int.ceil ((total_question_count : ℚ) / (skill_ids.length : ℚ)))) ∧
    (∃ events parts,
      get_question_skill_links_equidistributed_by_skill storeE
          total_question_count skill_ids = (events, .ok parts.flatten) ∧
        List.Forall₂ (fun (part : List Link) (_ : String) => part.length ≤
          (Int.ceil
            ((total_question_count : ℚ) / (skill_ids.length : ℚ))).toNat)
          parts skill_ids ∧
        parts.flatten.length ≤ skill_ids.length *
          (Int.ceil
            ((total_question_count : ℚ) / (skill_ids.length : ℚ))).toNat) ∧
    (∃ events parts,
      get_question_skill_links_based_on_difficulty_equidistributed_by_skill
          storeD total_question_count skill_ids d = (events, .ok parts.flatten) ∧
        List.Forall₂ (fun (part : List Link) (_ : String) => part.length ≤
          (Int.ceil
            ((total_question_count : ℚ) / (skill_ids.length : ℚ))).toNat)
          parts skill_ids ∧
        parts.flatten.length ≤ skill_ids.length *
          (Int.ceil
            ((total_question_count : ℚ) / (skill_ids.length : ℚ))).toNat) := by
  have hn : skill_ids.length ≠ 0 := fun h => hne (List.length_eq_zero.mp h)
  refine ⟨⟨question_count_per_skill_ok _ _ hn, ?_⟩, ?_, ?_⟩
  · refine Int.toNat_of_nonneg (Int.ceil_nonneg ?_)
    exact div_nonneg (by exact_mod_cast htotal) (Nat.cast_nonneg _)
  · obtain ⟨parts, hparts, hf⟩ := equiLoop_acc_decomposition storeE
      (Int.ceil ((total_question_count : ℚ) / (skill_ids.length : ℚ))).toNat
      skill_ids [] [] []
    rw [List.nil_append] at hparts
    have heq := equi_selector_eq storeE total_question_count skill_ids h20 hne
    rw [hparts] at heq
    exact ⟨_, parts, heq, hf, flatten_length_le_of_forall₂ _ _ _ hf⟩
  · obtain ⟨parts, hparts, hf⟩ := diffLoop_decomposition storeD d hv
      (Int.ceil ((total_question_count : ℚ) / (skill_ids.length : ℚ))).toNat
      skill_ids [] []
    rw [List.nil_append] at hparts
    have hf2 := hf.imp fun a b h => h.2.2
    have heq := diff_selector_eq storeD total_question_count skill_ids d h20 hne
    rw [hparts] at heq
    exact ⟨_, parts, heq, hf2, flatten_length_le_of_forall₂ _ _ _ hf2⟩

theorem selectors_quota_ceiling_and_length_bound_witness :
    (question_count_per_skill 3 (["a", "b"] : List String).length =
        .ok (Int.ceil (((3:Int) : ℚ) / (((["a", "b"] : List String).length : Nat) : ℚ))).toNat ∧
      (((Int.ceil (((3:Int) : ℚ) / ((["a", "b"] : List String).length : ℚ))).toNat : Int) =
        Int.ceil (((3:Int) : ℚ) / ((["a", "b"] : List String).length : ℚ)))) ∧
    (∃ events parts,
      get_question_skill_links_equidistributed_by_skill (fun _ _ => []) 3 ["a", "b"] =
        (events, .ok parts.flatten) ∧
        List.Forall₂ (fun (part : List Link) (_ : String) => part.length ≤
          (Int.ceil (((3:Int) : ℚ) / ((["a", "b"] : List String).length : ℚ))).toNat)
          parts ["a", "b"] ∧
        parts.flatten.length ≤ (["a", "b"] : List String).length *
          (Int.ceil (((3:Int) : ℚ) / ((["a", "b"] : List String).length : ℚ))).toNat) ∧
    (∃ events parts,
      get_question_skill_links_based_on_difficulty_equidistributed_by_skill
          emptyDiffStore 3 ["a", "b"] 0 = (events, .ok parts.flatten) ∧
        List.Forall₂ (fun (part : List Link) (_ : String) => part.length ≤
          (Int.ceil (((3:Int) : ℚ) / ((["a", "b"] : List String).length : ℚ))).toNat)
          parts ["a", "b"] ∧
        parts.flatten.length ≤ (["a", "b"] : List String).length *
          (Int.ceil (((3:Int) : ℚ) / ((["a", "b"] : List String).length : ℚ))).toNat) :=
  selectors_quota_ceiling_and_length_bound (fun _ _ => []) emptyDiffStore 3
    ["a", "b"] 0 (emptyDiffStore_valid 0) (by decide) (by decide) (by decide)

/-- C10: whatever the store answers, whenever the difficulty-ranked selector
succeeds, no two returned links share a question id: the final merge inserts
into a mapping keyed by question id with insert-if-absent semantics, so the
output is globally deduplicated even where the per-tier dedup passes leak
already-seen candidates. -/
theorem diff_selector_no_duplicate_question_ids (store : DiffStore)
    (total_question_count : Int) (skill_ids : List String) (d : ℚ)
    (events : List FetchEvent) (r : List Link)
    (h : get_question_skill_links_based_on_difficulty_equidistributed_by_skill
      store total_question_count skill_ids d = (events, .ok r)) :
    (r.map fun l => l.question_id).Nodup := by
  rw [get_question_skill_links_based_on_difficulty_equidistributed_by_skill] at h
  split at h
  · simp at h
  · split at h
    · simp at h
    · simp only [Prod.mk.injEq, Except.ok.injEq] at h
      rw [← h.2]
      exact diffLoop_nodup _ _ _ _ _ _ (by simp)

theorem diff_selector_no_duplicate_question_ids_witness :
    (([] : List Link).map fun l => l.question_id).Nodup :=
  diff_selector_no_duplicate_question_ids emptyDiffStore 0 ["a"] 0
    [FetchEvent.eqDifficulty "a" 0 0] [] (by with_unfolding_all decide)

/-- C8: in each skill iteration of the difficulty-ranked selector, the
strictly-easier fetch (limit `quota`) is performed if and only if the
deduplicated exact-difficulty candidates number fewer than `quota`, and the
strictly-harder fetch (limit `quota`) is performed if and only if, in
addition, the candidates are still fewer than `quota` after appending the
deduplicated easier ones. -/
theorem diff_tier_fetches_conditional (store : DiffStore) (mapping : List Link)
    (quota : Nat) (d : ℚ) (skill_id : String) :
    (FetchEvent.lessDifficulty skill_id d quota ∈
        (new_question_skill_link_models store mapping quota d skill_id).1 ↔
      (pyFilterRemove (fun l => hasQuestionId mapping l.question_id)
          (store.fetchEqual skill_id d (quota * 2))).length < quota) ∧
    (FetchEvent.greaterDifficulty skill_id d quota ∈
        (new_question_skill_link_models store mapping quota d skill_id).1 ↔
      ((pyFilterRemove (fun l => hasQuestionId mapping l.question_id)
          (store.fetchEqual skill_id d (quota * 2))).length < quota ∧
        ((pyFilterRemove (fun l => hasQuestionId mapping l.question_id)
            (store.fetchEqual skill_id d (quota * 2))) ++
          pyFilterRemove (fun l => hasQuestionId mapping l.question_id)
            (store.fetchEasier skill_id d quota)).length < quota)) := by
  rw [new_question_skill_link_models]
  simp only []
  constructor
  · split
    · next hlt =>
      split
      · exact iff_of_true (by simp) hlt
      · exact iff_of_true (by simp) hlt
    · next hge => exact iff_of_false (by simp) hge
  · split
    · next hlt =>
      split
      · next hlt2 => exact iff_of_true (by simp) ⟨hlt, hlt2⟩
      · next hge2 => exact iff_of_false (by simp) fun hc => hge2 hc.2
    · next hge => exact iff_of_false (by simp) fun hc => hge hc.1

/-- C6: with more than 20 skill ids, both selectors raise the
invalid-argument error immediately: the returned trace of store reads is
empty and the result does not depend on the store, the question count or the
requested difficulty. -/
theorem selectors_reject_more_than_twenty_skill_ids
    (storeE : String → Nat → List Link) (storeD : DiffStore)
    (totalE totalD : Int) (d : ℚ) (skill_ids : List String)
    (h : skill_ids.length > 20) :
    get_question_skill_links_equidistributed_by_skill storeE totalE skill_ids =
        ([], .error .maxSkillIds) ∧
      get_question_skill_links_based_on_difficulty_equidistributed_by_skill
        storeD totalD skill_ids d = ([], .error .maxSkillIds) := by
  have h2 : skill_ids.length > MAX_NUMBER_OF_SKILL_IDS := h
  constructor
  · rw [get_question_skill_links_equidistributed_by_skill, if_pos h2]
  · rw [get_question_skill_links_based_on_difficulty_equidistributed_by_skill,
      if_pos h2]

theorem selectors_reject_more_than_twenty_skill_ids_witness :
    get_question_skill_links_equidistributed_by_skill (fun _ _ => []) 5
        ((List.range 21).map fun n => toString n) = ([], .error .maxSkillIds) ∧
      get_question_skill_links_based_on_difficulty_equidistributed_by_skill
        emptyDiffStore 7 ((List.range 21).map fun n => toString n) 0 =
          ([], .error .maxSkillIds) :=
  selectors_reject_more_than_twenty_skill_ids (fun _ _ => []) emptyDiffStore 5 7 0
    ((List.range 21).map fun n => toString n) (by simp)

/-- C9: with an empty `skill_ids` list, for every `total_question_count` and
requested difficulty, both selectors pass the 20-skill-id validation and fail
with the division-by-zero error while computing the quota; the trace is empty
and the result does not depend on the store, so no store read happens. -/
theorem selectors_empty_skill_ids_divide_by_zero
    (storeE : String → Nat → List Link) (storeD : DiffStore)
    (totalE totalD : Int) (d : ℚ) :
    get_question_skill_links_equidistributed_by_skill storeE totalE [] =
        ([], .error .zeroDivision) ∧
      get_question_skill_links_based_on_difficulty_equidistributed_by_skill
        storeD totalD [] d = ([], .error .zeroDivision) := by
  have hq : ∀ t : Int, question_count_per_skill t ([] : List String).length =
      .error .zeroDivision := by
    intro t
    rw [question_count_per_skill, pyDivide]
    simp [Except.map]
  constructor
  · rw [get_question_skill_links_equidistributed_by_skill,
      if_neg (by decide), hq totalE]
  · rw [get_question_skill_links_based_on_difficulty_equidistributed_by_skill,
      if_neg (by decide), hq totalD]

/-- A two-skill store in which questions `q1` and `q2` each link to both
skills — the documented "same question linked to multiple skills" situation
the dedup pass is meant to handle. -/
def sharedQuestionsStore : String → Nat → List Link := fun s n =>
  if s = "s1" then [⟨"q1", "s1", 1⟩, ⟨"q2", "s1", 1⟩].take n
  else if s = "s2" then [⟨"q1", "s2", 1⟩, ⟨"q2", "s2", 1⟩].take n
  else []

/-- C1 fails on the code: at the valid input `total_question_count = 4`,
`skill_ids = [s1, s2]` (quota 2 per skill) against `sharedQuestionsStore`,
the equidistribution selector returns question `q2` twice.  The dedup pass
removes the s2-link of `q1` from the list being iterated, the iteration index
still advances, so the s2-link of `q2` is never tested against
`existing_question_ids` and survives — contradicting the source's own
"Deduplicate if the same question is linked to multiple skills" intent. -/
theorem equi_selector_returns_duplicate_question_id :
    get_question_skill_links_equidistributed_by_skill sharedQuestionsStore 4
        ["s1", "s2"] =
      ([FetchEvent.bySkill "s1" 4, FetchEvent.bySkill "s2" 4],
        .ok [⟨"q1", "s1", 1⟩, ⟨"q2", "s1", 1⟩, ⟨"q2", "s2", 1⟩]) ∧
      ¬ (([⟨"q1", "s1", 1⟩, ⟨"q2", "s1", 1⟩, ⟨"q2", "s2", 1⟩] : List Link).map
        fun l => l.question_id).Nodup := by
  constructor
  · with_unfolding_all decide
  · with_unfolding_all decide

/-- A store in which question `q2` links to both skills but skill `s1` has
two questions while the quota only selects one of them. -/
def overFetchStore : String → Nat → List Link := fun s n =>
  if s = "s1" then [⟨"q1", "s1", 1⟩, ⟨"q2", "s1", 1⟩].take n
  else if s = "s2" then [⟨"q2", "s2", 1⟩].take n
  else []

/-- C2 counterexample: at `total_question_count = 2`, `skill_ids = [s1, s2]`
(quota 1 per skill), the link of `q2` fetched for `s1` survives the dedup
pass but is NOT selected (only `q1` is, the quota being 1); still the `s2`
candidate carrying `q2` is discarded and the result is just `[q1@s1]` —
refuting the claim that links merely fetched but not selected for an earlier
skill never cause a later skill's candidate to be discarded. -/
theorem equi_selector_unselected_fetch_blocks_later_candidate :
    get_question_skill_links_equidistributed_by_skill overFetchStore 2
        ["s1", "s2"] =
      ([FetchEvent.bySkill "s1" 2, FetchEvent.bySkill "s2" 2],
        .ok [⟨"q1", "s1", 1⟩]) ∧
      overFetchStore "s2" 2 = [⟨"q2", "s2", 1⟩] ∧
      (⟨"q2", "s2", 1⟩ : Link) ∉ ([⟨"q1", "s1", 1⟩] : List Link) ∧
      "q2" ∉ (([⟨"q1", "s1", 1⟩] : List Link).map fun l => l.question_id) := by
  refine ⟨?_, ?_, ?_, ?_⟩ <;> with_unfolding_all decide

/-- C2 amended: in each skill iteration of the equidistribution selector, the
fetched candidates are filtered by the remove-during-iteration pass against
`existing_question_ids`; the first `quota` survivors are selected, while
`existing_question_ids` is extended with the question ids of ALL survivors —
including those beyond the quota that were never selected.  A candidate whose
question id is not recorded always survives the pass; equivalently, every
discarded candidate had a question id recorded from an earlier skill
(selected or merely fetched). -/
theorem equi_selector_discard_characterization
    (store : String → Nat → List Link) (quota : Nat) (skill_id : String)
    (rest : List String) (acc : List Link)
    (existing_question_ids : List String) (events : List FetchEvent) :
    (equiLoop store quota (skill_id :: rest) acc existing_question_ids events =
      equiLoop store quota rest
        (acc ++
          (pyFilterRemove (fun l => existing_question_ids.contains l.question_id)
            (store skill_id (quota * 2))).take quota)
        (existing_question_ids ++
          (pyFilterRemove (fun l => existing_question_ids.contains l.question_id)
            (store skill_id (quota * 2))).map fun l => l.question_id)
        (events ++ [FetchEvent.bySkill skill_id (quota * 2)])) ∧
    (∀ x ∈ store skill_id (quota * 2),
      x.question_id ∉ existing_question_ids →
        x ∈ pyFilterRemove (fun l => existing_question_ids.contains l.question_id)
          (store skill_id (quota * 2))) ∧
    (∀ x ∈ store skill_id (quota * 2),
      x ∉ pyFilterRemove (fun l => existing_question_ids.contains l.question_id)
          (store skill_id (quota * 2)) →
        x.question_id ∈ existing_question_ids) := by
  refine ⟨rfl, ?_, ?_⟩
  · intro x hx hnot
    refine mem_pyFilterRemove_of_not _ _ x hx ?_
    simpa using hnot
  · intro x hx hnot
    have hp := pred_of_not_mem_pyFilterRemove _ _ x hx hnot
    simpa using hp

/-- Every link in the blocks produced for `skill_ids` carries one of those
skill ids. -/
theorem flatten_skill_mem (d : ℚ) (parts : List (List Link))
    (skill_ids : List String)
    (h : List.Forall₂
      (fun part s => part.Pairwise (distLE d) ∧ ∀ l ∈ part, l.skill_id = s)
      parts skill_ids) :
    ∀ l ∈ parts.flatten, l.skill_id ∈ skill_ids := by
  induction h with
  | nil => simp
  | cons hab htail ih =>
    intro l hl
    rw [List.flatten_cons] at hl
    rcases List.mem_append.mp hl with h1 | h1
    · rw [hab.2 l h1]
      exact List.mem_cons_self _ _
    · exact List.mem_cons_of_mem _ (ih l h1)

/-- With pairwise-distinct skill ids, filtering the concatenated blocks by
one skill id recovers (at most) the one block of that skill, so the filtered
list inherits the block's distance-sortedness. -/
theorem filter_flatten_pairwise_distLE (d : ℚ) (parts : List (List Link))
    (skill_ids : List String)
    (h : List.Forall₂
      (fun part s => part.Pairwise (distLE d) ∧ ∀ l ∈ part, l.skill_id = s)
      parts skill_ids) :
    skill_ids.Nodup →
    ∀ s, ((parts.flatten.filter fun l => l.skill_id == s).Pairwise (distLE d)) := by
  induction h with
  | nil => intro _ s; simp
  | @cons a b as bs hab htail ih =>
    intro hnodup s
    rcases List.nodup_cons.mp hnodup with ⟨hb, hnd⟩
    rw [List.flatten_cons, List.filter_append]
    by_cases hsb : b = s
    · subst hsb
      have h1 : a.filter (fun l => l.skill_id == b) = a :=
        List.filter_eq_self.mpr fun l hl => by simp [hab.2 l hl]
      have h2 : (as.flatten.filter fun l => l.skill_id == b) = [] := by
        refine List.filter_eq_nil_iff.mpr ?_
        intro l hl
        have hmem := flatten_skill_mem d as bs htail l hl
        simp only [beq_iff_eq]
        intro he
        rw [he] at hmem
        exact hb hmem
      rw [h1, h2, List.append_nil]
      exact hab.1
    · have h1 : a.filter (fun l => l.skill_id == s) = [] := by
        refine List.filter_eq_nil_iff.mpr ?_
        intro l hl
        rw [hab.2 l hl]
        simp [hsb]
      rw [h1, List.nil_append]
      exact ih hnd s

/-- C4 amended: for every valid input whose skill ids are pairwise distinct,
among the returned links that belong to one skill the absolute distances to
the requested difficulty are non-decreasing, and consequently every
exact-difficulty match for a skill precedes every strictly-easier or
strictly-harder match for that same skill.  (Distinctness is needed: with a
repeated skill id the code can interleave a later, closer match after a
farther one — see the counterexample.) -/
theorem diff_selector_same_skill_distances_monotone (store : DiffStore)
    (total_question_count : Int) (skill_ids : List String) (d : ℚ)
    (hv : ValidDiffStore store d) (h20 : skill_ids.length ≤ 20)
    (hne : skill_ids ≠ []) (htotal : 0 ≤ total_question_count)
    (hnodup : skill_ids.Nodup) :
    ∃ events r,
      get_question_skill_links_based_on_difficulty_equidistributed_by_skill
          store total_question_count skill_ids d = (events, .ok r) ∧
        ∀ s, ((r.filter fun l => l.skill_id == s).Pairwise (distLE d)) ∧
          ((r.filter fun l => l.skill_id == s).Pairwise
            fun a b => b.skill_difficulty = d → a.skill_difficulty = d) := by
  obtain ⟨parts, hparts, hf⟩ := diffLoop_decomposition store d hv
    (Int.ceil ((total_question_count : ℚ) / (skill_ids.length : ℚ))).toNat
    skill_ids [] []
  rw [List.nil_append] at hparts
  have heq := diff_selector_eq store total_question_count skill_ids d h20 hne
  rw [hparts] at heq
  refine ⟨_, parts.flatten, heq, ?_⟩
  intro s
  have hp := filter_flatten_pairwise_distLE d parts skill_ids
    (hf.imp fun a b h => ⟨h.1, h.2.1⟩) hnodup s
  refine ⟨hp, hp.imp ?_⟩
  intro a b hab hbd
  have hab2 : distTo d a ≤ distTo d b := hab
  have hb0 : distTo d b = 0 := by rw [distTo, hbd, sub_self, abs_zero]
  have ha0 : |a.skill_difficulty - d| = 0 :=
    le_antisymm (hab2.trans (le_of_eq hb0)) (abs_nonneg _)
  exact sub_eq_zero.mp (abs_eq_zero.mp ha0)

theorem diff_selector_same_skill_distances_monotone_witness :
    ∃ events r,
      get_question_skill_links_based_on_difficulty_equidistributed_by_skill
          emptyDiffStore 0 ["a"] 0 = (events, .ok r) ∧
        ∀ s, ((r.filter fun l => l.skill_id == s).Pairwise (distLE 0)) ∧
          ((r.filter fun l => l.skill_id == s).Pairwise
            fun a b => b.skill_difficulty = 0 → a.skill_difficulty = 0) :=
  diff_selector_same_skill_distances_monotone emptyDiffStore 0 ["a"] 0
    (emptyDiffStore_valid 0) (by decide) (by decide) (by decide) (by decide)

def linkExact : Link := ⟨"qe", "s", 20⟩

def linkEasier1 : Link := ⟨"ql1", "s", 18⟩

def linkEasier2 : Link := ⟨"ql2", "s", 14⟩

def linkHarder : Link := ⟨"qh", "s", 21⟩

/-- Store for the repeated-skill counterexample: skill `s` links one exact
match (difficulty 20), two easier (18, 14 — decreasing) and one harder (21)
question at requested difficulty 20. -/
def repeatedSkillStore : DiffStore :=
  ⟨fun s _ n => if s = "s" then [linkExact].take n else [],
    fun s _ n => if s = "s" then [linkEasier1, linkEasier2].take n else [],
    fun s _ n => if s = "s" then [linkHarder].take n else []⟩

theorem repeatedSkillStore_valid : ValidDiffStore repeatedSkillStore 20 := by
  refine ⟨?_, ?_, ?_, ?_, ?_, ?_, ?_, ?_, ?_, ?_, ?_⟩ <;>
    intro s n <;>
    simp only [repeatedSkillStore] <;>
    split
  · intro l hl
    next hs =>
      have hl2 := List.take_subset _ _ hl
      simp only [List.mem_singleton] at hl2
      subst hl2
      exact ⟨by rw [hs]; rfl, by with_unfolding_all decide⟩
  · simp
  · exact List.length_take_le _ _
  · simp
  · rw [List.map_take]
    exact ((by decide : (([linkExact] : List Link).map
      fun l => l.question_id).Nodup)).sublist (List.take_sublist _ _)
  · simp
  · intro l hl
    next hs =>
      have hl2 := List.take_subset _ _ hl
      rcases List.mem_cons.mp hl2 with h1 | h1
      · subst h1
        exact ⟨by rw [hs]; rfl, by with_unfolding_all decide⟩
      · simp only [List.mem_singleton] at h1
        subst h1
        exact ⟨by rw [hs]; rfl, by with_unfolding_all decide⟩
  · simp
  · exact ((by with_unfolding_all decide :
      (([linkEasier1, linkEasier2] : List Link).Pairwise
        fun a b => b.skill_difficulty ≤ a.skill_difficulty)).sublist
      (List.take_sublist _ _))
  · simp
  · exact List.length_take_le _ _
  · simp
  · rw [List.map_take]
    exact ((by decide : (([linkEasier1, linkEasier2] : List Link).map
      fun l => l.question_id).Nodup)).sublist (List.take_sublist _ _)
  · simp
  · intro l hl
    next hs =>
      have hl2 := List.take_subset _ _ hl
      simp only [List.mem_singleton] at hl2
      subst hl2
      exact ⟨by rw [hs]; rfl, by with_unfolding_all decide⟩
  · simp
  · exact ((by with_unfolding_all decide :
      (([linkHarder] : List Link).Pairwise
        fun a b => a.skill_difficulty ≤ b.skill_difficulty)).sublist
      (List.take_sublist _ _))
  · simp
  · exact List.length_take_le _ _
  · simp
  · rw [List.map_take]
    exact ((by decide : (([linkHarder] : List Link).map
      fun l => l.question_id).Nodup)).sublist (List.take_sublist _ _)
  · simp

/-- C4 counterexample: `["s", "s"]` is a valid input by the spec's own
validity conditions (2 ≤ 20 entries, non-empty, total 4 ≥ 0) over a valid
store, yet among the returned links — all belonging to skill `s` — the
distances to the requested difficulty 20 run 0, 2, 1, 6: the claimed
non-decreasing order fails between the second and third link. -/
theorem diff_selector_distances_not_monotone_with_repeated_skill_id :
    ValidDiffStore repeatedSkillStore 20 ∧
      (["s", "s"] : List String).length ≤ 20 ∧ ((0:Int) ≤ 4) ∧
      (get_question_skill_links_based_on_difficulty_equidistributed_by_skill
          repeatedSkillStore 4 ["s", "s"] 20).2 =
        .ok [linkExact, linkEasier1, linkHarder, linkEasier2] ∧
      ¬ ((([linkExact, linkEasier1, linkHarder, linkEasier2] : List Link).filter
        fun l => l.skill_id == "s").Pairwise (distLE 20)) :=
  ⟨repeatedSkillStore_valid, by decide, by decide,
    by with_unfolding_all decide, by with_unfolding_all decide⟩

/-- A stored `QuestionSkillLinkModel` entity: its datastore key (`id`)
together with the three properties. -/
structure QSLEntity where
  id : String
  question_id : String
  skill_id : String
  skill_difficulty : ℚ
deriving DecidableEq, Repr

/-- Method `QuestionSkillLinkModel.get_model_id` (source lines 193-204):
`'%s:%s' % (question_id, skill_id)`. -/
def get_model_id (question_id skill_id : String) : String :=
  question_id ++ ":" ++ skill_id

/-- Lookup `cls.get(instance_id, strict=False)` over the modelled datastore
contents: the entity whose key equals the given id, if any. -/
def getById (db : List QSLEntity) (instance_id : String) : Option QSLEntity :=
  db.find? fun e => e.id == instance_id

/-- Method `QuestionSkillLinkModel.create` (source lines 206-233): raise if an
entity with id `question_id:skill_id` exists, otherwise return a fresh
instance carrying that id and the given fields.  The datastore is left
untouched either way (`create` never writes). -/
def create (db : List QSLEntity) (question_id skill_id : String)
    (skill_difficulty : ℚ) : Except PyErr QSLEntity :=
  if (getById db (get_model_id question_id skill_id)).isSome then
    .error .alreadyLinked
  else
    .ok ⟨get_model_id question_id skill_id, question_id, skill_id,
      skill_difficulty⟩

/-- C5 amended: provided every stored entity's key is the encoding of its own
pair (the invariant `create` maintains) and the encoding is unambiguous for
the queried pair (e.g. when question ids contain no `':'`), `create` raises
the conflict error exactly when a record for `(question_id, skill_id)`
already exists, and otherwise returns a new instance with id
`question_id:skill_id` carrying the given fields; it never writes to the
store in either case. -/
theorem create_conflict_iff_pair_exists (db : List QSLEntity)
    (question_id skill_id : String) (skill_difficulty : ℚ)
    (hinv : ∀ e ∈ db, e.id = get_model_id e.question_id e.skill_id)
    (hinj : ∀ e ∈ db,
      get_model_id e.question_id e.skill_id = get_model_id question_id skill_id →
      e.question_id = question_id ∧ e.skill_id = skill_id) :
    (create db question_id skill_id skill_difficulty = .error .alreadyLinked ↔
      ∃ e ∈ db, e.question_id = question_id ∧ e.skill_id = skill_id) ∧
    ((∀ e ∈ db, ¬ (e.question_id = question_id ∧ e.skill_id = skill_id)) →
      create db question_id skill_id skill_difficulty =
        .ok ⟨get_model_id question_id skill_id, question_id, skill_id,
          skill_difficulty⟩) := by
  have hiff : (getById db (get_model_id question_id skill_id)).isSome = true ↔
      ∃ e ∈ db, e.question_id = question_id ∧ e.skill_id = skill_id := by
    rw [getById, List.find?_isSome]
    constructor
    · rintro ⟨e, he, hid⟩
      refine ⟨e, he, hinj e he ?_⟩
      rw [← hinv e he]
      exact eq_of_beq hid
    · rintro ⟨e, he, hq, hs⟩
      refine ⟨e, he, ?_⟩
      rw [hinv e he, hq, hs]
      exact beq_self_eq_true _
  constructor
  · rw [create]
    constructor
    · intro h
      by_contra hc
      rw [if_neg] at h
      · exact Except.noConfusion h
      · intro hs
        exact hc (hiff.mp hs)
    · intro h
      rw [if_pos (hiff.mpr h)]
  · intro h
    rw [create, if_neg]
    intro hs
    obtain ⟨e, he, hpair⟩ := hiff.mp hs
    exact h e he hpair

theorem create_conflict_iff_pair_exists_witness :
    (create [⟨"x:y", "x", "y", 1⟩] "x" "y" 1 = .error .alreadyLinked ↔
      ∃ e ∈ [(⟨"x:y", "x", "y", 1⟩ : QSLEntity)],
        e.question_id = "x" ∧ e.skill_id = "y") ∧
    ((∀ e ∈ [(⟨"x:y", "x", "y", 1⟩ : QSLEntity)],
        ¬ (e.question_id = "x" ∧ e.skill_id = "y")) →
      create [⟨"x:y", "x", "y", 1⟩] "x" "y" 1 =
        .ok ⟨get_model_id "x" "y", "x", "y", 1⟩) :=
  create_conflict_iff_pair_exists [⟨"x:y", "x", "y", 1⟩] "x" "y" 1
    (by decide) (by decide)

/-- C5 counterexample: the id encoding is ambiguous when ids contain `':'`.
The store holds only the pair `("a:b", "c")` — consistent with the key
invariant — yet `create` for the distinct pair `("a", "b:c")` raises the
conflict error, because both pairs encode to the key `"a:b:c"`.  So "raises
if and only if a record for the pair exists" fails as stated. -/
theorem create_conflict_without_existing_pair :
    (∀ e ∈ [(⟨"a:b:c", "a:b", "c", 1⟩ : QSLEntity)],
      e.id = get_model_id e.question_id e.skill_id) ∧
    create [⟨"a:b:c", "a:b", "c", 1⟩] "a" "b:c" 1 = .error .alreadyLinked ∧
    (∀ e ∈ [(⟨"a:b:c", "a:b", "c", 1⟩ : QSLEntity)],
      ¬ (e.question_id = "a" ∧ e.skill_id = "b:c")) := by
  refine ⟨?_, ?_, ?_⟩ <;> decide

end OppiaQuestionModels
